import Mathlib

/-!
# cyka: frame codec, read-loop dispatch and command routing

A shallow embedding of `cyka.go`.  Byte slices are `List UInt8`; the fixed-width
header fields (`uint32`, `uint16`) are natural numbers, reduced modulo `2^32`
or `2^16` at the places where the Go code converts or subtracts.  Fallible
functions return `Except`; a Go runtime panic is an explicit outcome.
The platform is taken to be 64-bit (`int` and `uintptr` are 64 bits wide).
-/

namespace Cyka

/-- One octet of a Go `[]byte`. -/
abbrev Byte := UInt8

/-- The two errors `io.ReadFull` (inside `binary.Read`) can return on a
`bytes.Buffer`: nothing left to read, or fewer bytes than asked for. -/
inductive Error where
  | EOF
  | ErrUnexpectedEOF
  deriving DecidableEq

def protocolVersion : Nat := 1

def opSendHeartbeat : Nat := 2

def opPopularity : Nat := 3

def opCommand : Nat := 5

def opAuth : Nat := 7

def opRecvHeartbeat : Nat := 8

/-- The `header` struct: `Size uint32`, `HeaderSize uint16`,
`ProtocolVersion uint16`, `Operation uint32`, `Sequence uint32`. -/
structure header where
  Size : Nat
  HeaderSize : Nat
  ProtocolVersion : Nat
  Operation : Nat
  Sequence : Nat
  deriving DecidableEq

/-- The constant `unsafe.Sizeof(header{})`: 4 + 2 + 2 + 4 + 4, no padding. -/
def headerSize : Nat := 16

/-- The `packet` struct: an embedded `header` and the payload `data`. -/
structure packet extends header where
  data : List Byte
  deriving DecidableEq

/-- Big-endian `PutUint16`: `byte(v >> 8)`, `byte(v)`. -/
def PutUint16 (v : Nat) : List Byte :=
  [UInt8.ofNat (v / 256 % 256), UInt8.ofNat (v % 256)]

/-- Big-endian `PutUint32`: `byte(v >> 24)`, `byte(v >> 16)`, `byte(v >> 8)`, `byte(v)`. -/
def PutUint32 (v : Nat) : List Byte :=
  [UInt8.ofNat (v / 16777216 % 256), UInt8.ofNat (v / 65536 % 256),
   UInt8.ofNat (v / 256 % 256), UInt8.ofNat (v % 256)]

/-- Big-endian value of two octets. -/
def beUint16 (b0 b1 : Byte) : Nat :=
  256 * b0.toNat + b1.toNat

/-- Big-endian value of four octets. -/
def beUint32 (b0 b1 b2 b3 : Byte) : Nat :=
  16777216 * b0.toNat + 65536 * b1.toNat + 256 * b2.toNat + b3.toNat

/-- The call `binary.BigEndian.Uint32(b)`: reads `b[0..3]`; `none` is the
index-out-of-range runtime panic raised when `len(b) < 4`. -/
def Uint32 : List Byte → Option Nat
  | b0 :: b1 :: b2 :: b3 :: _ => some (beUint32 b0 b1 b2 b3)
  | _ => none

/-- The call `binary.Write(buf, binary.BigEndian, &p.header)`: the five fields in
declaration order, each fixed-width big-endian.  It cannot fail. -/
def writeHeader (h : header) : List Byte :=
  PutUint32 h.Size ++ PutUint16 h.HeaderSize ++ PutUint16 h.ProtocolVersion ++
    PutUint32 h.Operation ++ PutUint32 h.Sequence

/-- The method `(p *packet) bytes()`: the header, then `data` as it is.  Both
`binary.Write` calls are on fixed-size data and a `bytes.Buffer`, so the result is
always `ok`. -/
def packet.bytes (p : packet) : Except Error (List Byte) :=
  .ok (writeHeader p.toheader ++ p.data)

/-- The call `io.ReadFull` on a `bytes.Buffer` holding `r`, asking for `n` bytes:
the bytes read and the rest of the buffer, `EOF` when the buffer is empty and
`ErrUnexpectedEOF` when it holds some but fewer than `n` bytes. -/
def ReadFull (r : List Byte) (n : Nat) : Except Error (List Byte × List Byte) :=
  if n ≤ r.length then .ok (r.take n, r.drop n)
  else if r.length = 0 then .error .EOF
  else .error .ErrUnexpectedEOF

/-- The header decoded by `binary.Read` from the 16 bytes it has read. -/
def decodeHeader (hb : List Byte) : header :=
  { Size := beUint32 (hb.getD 0 0) (hb.getD 1 0) (hb.getD 2 0) (hb.getD 3 0)
    HeaderSize := beUint16 (hb.getD 4 0) (hb.getD 5 0)
    ProtocolVersion := beUint16 (hb.getD 6 0) (hb.getD 7 0)
    Operation := beUint32 (hb.getD 8 0) (hb.getD 9 0) (hb.getD 10 0) (hb.getD 11 0)
    Sequence := beUint32 (hb.getD 12 0) (hb.getD 13 0) (hb.getD 14 0) (hb.getD 15 0) }

/-- The expression `p.Size - uint32(headerSize)`: a `uint32` subtraction, which
wraps around modulo `2^32`. -/
def dataLen (h : header) : Nat :=
  (4294967296 + h.Size - headerSize) % 4294967296

/-- The function `newPacketFromBytes`: read the 16-byte header, make a payload
slice of `dataLen` bytes and fill it from what follows the header. -/
def newPacketFromBytes (b : List Byte) : Except Error packet :=
  match ReadFull b headerSize with
  | .error e => .error e
  | .ok (hb, buf) =>
    let h := decodeHeader hb
    match ReadFull buf (dataLen h) with
    | .error e => .error e
    | .ok (d, _) => .ok { toheader := h, data := d }

/-- The function `newPacket`: `uint32(headerSize + uintptr(len(d)))`,
`uint16(headerSize)`, `protocolVersion`, `uint32(op)`, `1`, and the payload. -/
def newPacket (op : Int) (d : List Byte) : packet :=
  { Size := (headerSize + d.length) % 4294967296
    HeaderSize := headerSize % 65536
    ProtocolVersion := protocolVersion
    Operation := (op % 4294967296).toNat
    Sequence := 1
    data := d }

/-- The `width`-byte big-endian rendering of `v`, most significant octet first
(how the wire format lays out a fixed-width field). -/
def bigEndianField (width v : Nat) : List Byte :=
  (List.range width).reverse.map (fun i => UInt8.ofNat (v / 256 ^ i % 256))

/-- A header whose fields fit their declared widths. -/
def header.inRange (h : header) : Prop :=
  h.Size < 4294967296 ∧ h.HeaderSize < 65536 ∧ h.ProtocolVersion < 65536 ∧
    h.Operation < 4294967296 ∧ h.Sequence < 4294967296

/-- The total size a buffer declares: its first four bytes read big-endian. -/
def declaredSize (b : List Byte) : Nat :=
  beUint32 (b.getD 0 0) (b.getD 1 0) (b.getD 2 0) (b.getD 3 0)

/-! ## The read loop of `main` -/

/-- A Go panic that ends the process: `logger.Panic(err)` on a decode error, or the
index-out-of-range panic of the runtime. -/
inductive Panic where
  | loggerPanic (err : Error)
  | indexOutOfRange
  deriving DecidableEq

/-- What one iteration of the read loop does with a decoded packet: print the
popularity count, start `go handleCommand(p.data)`, start `go sendHeartbeat(conn)`,
or print `unknown op:`. -/
inductive Action where
  | logPopularity (n : Nat)
  | goHandleCommand (cmd : List Byte)
  | goSendHeartbeat
  | logUnknownOp (op : Nat)
  deriving DecidableEq

/-- The `switch p.Operation` of the read loop. -/
def dispatch (p : packet) : Except Panic Action :=
  if p.Operation = opPopularity then
    match Uint32 p.data with
    | some n => .ok (.logPopularity n)
    | none => .error .indexOutOfRange
  else if p.Operation = opCommand then .ok (.goHandleCommand p.data)
  else if p.Operation = opRecvHeartbeat then .ok .goSendHeartbeat
  else .ok (.logUnknownOp p.Operation)

/-- One iteration of the read loop on a received message `msg`. -/
def handleMessage (msg : List Byte) : Except Panic Action :=
  match newPacketFromBytes msg with
  | .error e => .error (.loggerPanic e)
  | .ok p => dispatch p

/-- The read loop run over the messages the connection delivers, in order: the
actions taken, and the panic that ended the loop if there was one. -/
def readLoop : List (List Byte) → List Action × Option Panic
  | [] => ([], none)
  | msg :: rest =>
    match handleMessage msg with
    | .error p => ([], some p)
    | .ok a => (a :: (readLoop rest).1, (readLoop rest).2)

/-! ## `handleCommand` -/

/-- What `handleCommand` prints: a chat line and a gift line on `dinger`, an
`unknown command:` line with the command name and `string(cmd)` on `logger`. -/
inductive Output where
  | chat (user text : String)
  | gift (user action gift : String) (num : Int)
  | unknownCommand (command : String) (raw : List Byte)
  deriving DecidableEq

/-- The function `handleCommand`.  The JSON accessors `fastjson.GetString` and
`fastjson.GetInt` (an external library) are the parameters `GetString` and
`GetInt`, applied to the payload and a key path. -/
def handleCommand (GetString : List Byte → List String → String)
    (GetInt : List Byte → List String → Int) (cmd : List Byte) : List Output :=
  let command := GetString cmd ["cmd"]
  if command = "DANMU_MSG" then
    [.chat (GetString cmd ["info", "2", "1"]) (GetString cmd ["info", "1"])]
  else if command = "SEND_GIFT" then
    [.gift (GetString cmd ["data", "uname"]) (GetString cmd ["data", "action"])
      (GetString cmd ["data", "giftName"]) (GetInt cmd ["data", "num"])]
  else if command = "WELCOME" then []
  else if command = "WELCOME_GUARD" then []
  else if command = "SYS_MSG" then []
  else if command = "PREPARING" then []
  else if command = "LIVE" then []
  else if command = "WISH_BOTTLE" then []
  else if command = "NOTICE_MSG" then []
  else if command = "ROOM_RANK" then []
  else if command = "COMBO_SEND" then []
  else if command = "COMBO_END" then []
  else if command = "ROOM_BLOCK_MSG" then []
  else if command = "ENTRY_EFFECT" then []
  else [.unknownCommand command cmd]

/-- The twelve command names the table lists as known and suppressed. -/
def suppressedCommands : List String :=
  ["WELCOME", "WELCOME_GUARD", "SYS_MSG", "PREPARING", "LIVE", "WISH_BOTTLE", "NOTICE_MSG",
   "ROOM_RANK", "COMBO_SEND", "COMBO_END", "ROOM_BLOCK_MSG", "ENTRY_EFFECT"]

/-! ## `send`, `sendHeartbeat`, `sendAuth` -/

/-- The conversion `[]byte(s)`: the UTF-8 octets of a string. -/
def stringBytes (s : String) : List Byte :=
  s.toUTF8.data.toList

def emptyJSON : String := "\x7b\x7d"

def authJSONTemplate : String :=
  "\x7b\"uid\":0,\"roomid\":%d,\"protover\":1,\"platform\":\"web\",\"clientver\":\"1.4.0\"\x7d"

/-- The decimal text `fmt` prints for the verb `%d`: a minus sign for a negative
number, then the digits of the magnitude. -/
def fmtInteger (a : Int) : List Byte :=
  (if a < 0 then [0x2d] else []) ++
    (Nat.toDigits 10 a.natAbs).map (fun c => UInt8.ofNat c.toNat)

/-- The call `fmt.Sprintf(format, a)` for a format with one `%d` verb and one
integer argument: the text before the verb, the decimal text of `a`, the text
after the verb. -/
def Sprintf : List Byte → Int → List Byte
  | [], _ => []
  | c :: rest, a =>
    if c = 0x25 ∧ rest.head? = some 0x64 then fmtInteger a ++ rest.tail
    else c :: Sprintf rest a

/-- The function `send`, on a connection that accepts every write: `conn` is the
list of binary messages written so far, and the result appends the frame handed
to `conn.WriteMessage`. -/
def send (conn : List (List Byte)) (op : Int) (msg : List Byte) :
    Except Error (List (List Byte)) :=
  match (newPacket op msg).bytes with
  | .error e => .error e
  | .ok b => .ok (conn ++ [b])

def sendHeartbeat (conn : List (List Byte)) : Except Error (List (List Byte)) :=
  send conn opSendHeartbeat (stringBytes emptyJSON)

def sendAuth (conn : List (List Byte)) (id : Int) : Except Error (List (List Byte)) :=
  send conn opAuth (Sprintf (stringBytes authJSONTemplate) id)

/-! ## Octets and big-endian fields -/

theorem toNat_ofNat_of_lt (n : Nat) (h : n < 256) : (UInt8.ofNat n).toNat = n := by
  show n % 256 = n
  omega

theorem ofNat_toNat (u : Byte) : UInt8.ofNat u.toNat = u := by
  cases u with | mk v => simp [UInt8.ofNat, UInt8.toNat]

theorem toNat_lt (u : Byte) : u.toNat < 256 := by
  cases u with | mk v => exact v.isLt

theorem length_writeHeader (h : header) : (writeHeader h).length = 16 := by
  simp [writeHeader, PutUint32, PutUint16]

theorem beUint32_lt (b0 b1 b2 b3 : Byte) : beUint32 b0 b1 b2 b3 < 4294967296 := by
  have h0 := toNat_lt b0
  have h1 := toNat_lt b1
  have h2 := toNat_lt b2
  have h3 := toNat_lt b3
  unfold beUint32
  omega

theorem beUint16_lt (b0 b1 : Byte) : beUint16 b0 b1 < 65536 := by
  have h0 := toNat_lt b0
  have h1 := toNat_lt b1
  unfold beUint16
  omega

theorem beUint32_PutUint32 (v : Nat) (h : v < 4294967296) :
    beUint32 (UInt8.ofNat (v / 16777216 % 256)) (UInt8.ofNat (v / 65536 % 256))
      (UInt8.ofNat (v / 256 % 256)) (UInt8.ofNat (v % 256)) = v := by
  unfold beUint32
  rw [toNat_ofNat_of_lt _ (Nat.mod_lt _ (by norm_num)),
    toNat_ofNat_of_lt _ (Nat.mod_lt _ (by norm_num)),
    toNat_ofNat_of_lt _ (Nat.mod_lt _ (by norm_num)),
    toNat_ofNat_of_lt _ (Nat.mod_lt _ (by norm_num))]
  omega

theorem beUint16_PutUint16 (v : Nat) (h : v < 65536) :
    beUint16 (UInt8.ofNat (v / 256 % 256)) (UInt8.ofNat (v % 256)) = v := by
  unfold beUint16
  rw [toNat_ofNat_of_lt _ (Nat.mod_lt _ (by norm_num)),
    toNat_ofNat_of_lt _ (Nat.mod_lt _ (by norm_num))]
  omega

theorem PutUint32_beUint32 (b0 b1 b2 b3 : Byte) :
    PutUint32 (beUint32 b0 b1 b2 b3) = [b0, b1, b2, b3] := by
  have h0 := toNat_lt b0
  have h1 := toNat_lt b1
  have h2 := toNat_lt b2
  have h3 := toNat_lt b3
  have e0 : beUint32 b0 b1 b2 b3 / 16777216 % 256 = b0.toNat := by unfold beUint32; omega
  have e1 : beUint32 b0 b1 b2 b3 / 65536 % 256 = b1.toNat := by unfold beUint32; omega
  have e2 : beUint32 b0 b1 b2 b3 / 256 % 256 = b2.toNat := by unfold beUint32; omega
  have e3 : beUint32 b0 b1 b2 b3 % 256 = b3.toNat := by unfold beUint32; omega
  simp only [PutUint32, e0, e1, e2, e3, ofNat_toNat]

theorem PutUint16_beUint16 (b0 b1 : Byte) :
    PutUint16 (beUint16 b0 b1) = [b0, b1] := by
  have h0 := toNat_lt b0
  have h1 := toNat_lt b1
  have e0 : beUint16 b0 b1 / 256 % 256 = b0.toNat := by unfold beUint16; omega
  have e1 : beUint16 b0 b1 % 256 = b1.toNat := by unfold beUint16; omega
  simp only [PutUint16, e0, e1, ofNat_toNat]

theorem bigEndianField_four (v : Nat) : bigEndianField 4 v = PutUint32 v := by
  simp [bigEndianField, PutUint32, List.range_succ]

theorem bigEndianField_two (v : Nat) : bigEndianField 2 v = PutUint16 v := by
  simp [bigEndianField, PutUint16, List.range_succ]

theorem decodeHeader_inRange (hb : List Byte) : (decodeHeader hb).inRange :=
  ⟨beUint32_lt _ _ _ _, beUint16_lt _ _, beUint16_lt _ _, beUint32_lt _ _ _ _,
    beUint32_lt _ _ _ _⟩

theorem decodeHeader_writeHeader (h : header) (hr : h.inRange) :
    decodeHeader (writeHeader h) = h := by
  obtain ⟨h1, h2, h3, h4, h5⟩ := hr
  cases h with
  | mk s hs pv o sq =>
    simp only [writeHeader, PutUint32, PutUint16, decodeHeader, List.cons_append, List.nil_append,
      List.getD_cons_zero, List.getD_cons_succ]
    rw [beUint32_PutUint32 s h1, beUint16_PutUint16 hs h2, beUint16_PutUint16 pv h3,
      beUint32_PutUint32 o h4, beUint32_PutUint32 sq h5]

theorem exists_sixteen (b : List Byte) (h : 16 ≤ b.length) :
    ∃ a0 a1 a2 a3 a4 a5 a6 a7 a8 a9 a10 a11 a12 a13 a14 a15 rest,
      b = a0 :: a1 :: a2 :: a3 :: a4 :: a5 :: a6 :: a7 :: a8 :: a9 :: a10 :: a11 :: a12 :: a13 ::
        a14 :: a15 :: rest := by
  rcases b with _ | ⟨a0, _ | ⟨a1, _ | ⟨a2, _ | ⟨a3, _ | ⟨a4, _ | ⟨a5, _ | ⟨a6, _ | ⟨a7, _ | ⟨a8,
    _ | ⟨a9, _ | ⟨a10, _ | ⟨a11, _ | ⟨a12, _ | ⟨a13, _ | ⟨a14, _ | ⟨a15, rest⟩⟩⟩⟩⟩⟩⟩⟩⟩⟩⟩⟩⟩⟩⟩⟩
  all_goals first
    | exact ⟨_, _, _, _, _, _, _, _, _, _, _, _, _, _, _, _, _, rfl⟩
    | (simp only [List.length_cons, List.length_nil] at h; omega)

theorem writeHeader_decodeHeader (hb : List Byte) (h : hb.length = 16) :
    writeHeader (decodeHeader hb) = hb := by
  obtain ⟨a0, a1, a2, a3, a4, a5, a6, a7, a8, a9, a10, a11, a12, a13, a14, a15, rest, rfl⟩ :=
    exists_sixteen hb (by omega)
  have hrest : rest = [] := by
    simp only [List.length_cons] at h
    exact List.length_eq_zero.mp (by omega)
  subst hrest
  simp only [writeHeader, decodeHeader, List.getD_cons_zero, List.getD_cons_succ,
    PutUint32_beUint32, PutUint16_beUint16, List.cons_append, List.nil_append]

/-! ## `ReadFull` and `newPacketFromBytes` -/

theorem ReadFull_append (a b : List Byte) : ReadFull (a ++ b) a.length = .ok (a, b) := by
  simp [ReadFull]

theorem ReadFull_ok_iff (r : List Byte) (n : Nat) (x y : List Byte) :
    ReadFull r n = .ok (x, y) ↔ n ≤ r.length ∧ x = r.take n ∧ y = r.drop n := by
  unfold ReadFull
  by_cases h : n ≤ r.length
  · rw [if_pos h]
    constructor
    · intro e
      injection e with e
      injection e with e1 e2
      exact ⟨h, e1.symm, e2.symm⟩
    · rintro ⟨_, rfl, rfl⟩
      rfl
  · rw [if_neg h]
    constructor
    · intro e
      split at e <;> cases e
    · rintro ⟨hle, _, _⟩
      exact absurd hle h

theorem ReadFull_error_of_lt (r : List Byte) (n : Nat) (h : r.length < n) :
    ∃ e, ReadFull r n = .error e := by
  unfold ReadFull
  rw [if_neg (by omega)]
  by_cases h0 : r.length = 0
  · exact ⟨.EOF, by rw [if_pos h0]⟩
  · exact ⟨.ErrUnexpectedEOF, by rw [if_neg h0]⟩

theorem ReadFull_error_iff (r : List Byte) (n : Nat) :
    (∃ e, ReadFull r n = .error e) ↔ r.length < n := by
  constructor
  · rintro ⟨e, he⟩
    by_contra hn
    have : ReadFull r n = .ok (r.take n, r.drop n) :=
      (ReadFull_ok_iff r n _ _).mpr ⟨by omega, rfl, rfl⟩
    rw [this] at he
    cases he
  · exact ReadFull_error_of_lt r n

theorem newPacketFromBytes_of_header_error (b : List Byte) (e : Error)
    (h1 : ReadFull b headerSize = .error e) : newPacketFromBytes b = .error e := by
  unfold newPacketFromBytes
  rw [h1]

theorem newPacketFromBytes_of_data_error (b hb buf : List Byte) (e : Error)
    (h1 : ReadFull b headerSize = .ok (hb, buf))
    (h2 : ReadFull buf (dataLen (decodeHeader hb)) = .error e) :
    newPacketFromBytes b = .error e := by
  unfold newPacketFromBytes
  rw [h1]
  dsimp only
  rw [h2]

theorem newPacketFromBytes_of_reads (b hb buf d r : List Byte)
    (h1 : ReadFull b headerSize = .ok (hb, buf))
    (h2 : ReadFull buf (dataLen (decodeHeader hb)) = .ok (d, r)) :
    newPacketFromBytes b = .ok { toheader := decodeHeader hb, data := d } := by
  unfold newPacketFromBytes
  rw [h1]
  dsimp only
  rw [h2]

/-- Every successful decode read 16 header bytes and then `dataLen` payload bytes. -/
theorem newPacketFromBytes_ok_inv (b : List Byte) (p : packet)
    (h : newPacketFromBytes b = .ok p) :
    16 ≤ b.length ∧ dataLen (decodeHeader (b.take 16)) ≤ (b.drop 16).length ∧
      p = { toheader := decodeHeader (b.take 16),
            data := (b.drop 16).take (dataLen (decodeHeader (b.take 16))) } := by
  by_cases h16 : 16 ≤ b.length
  · have h1 : ReadFull b headerSize = .ok (b.take 16, b.drop 16) :=
      (ReadFull_ok_iff b headerSize _ _).mpr ⟨h16, rfl, rfl⟩
    by_cases hn : dataLen (decodeHeader (b.take 16)) ≤ (b.drop 16).length
    · have h2 := (ReadFull_ok_iff (b.drop 16) (dataLen (decodeHeader (b.take 16))) _ _).mpr
        ⟨hn, rfl, rfl⟩
      rw [newPacketFromBytes_of_reads b _ _ _ _ h1 h2] at h
      injection h with h
      exact ⟨h16, hn, h.symm⟩
    · obtain ⟨e, he⟩ := ReadFull_error_of_lt (b.drop 16) _ (Nat.lt_of_not_le hn)
      rw [newPacketFromBytes_of_data_error b _ _ e h1 he] at h
      cases h
  · obtain ⟨e, he⟩ := ReadFull_error_of_lt b headerSize (Nat.lt_of_not_le h16)
    rw [newPacketFromBytes_of_header_error b e he] at h
    cases h

/-- Decoding the bytes written for an in-range header whose `Size` matches the
payload, whatever bytes follow the frame. -/
theorem newPacketFromBytes_writeHeader (h : header) (d t : List Byte) (hr : h.inRange)
    (hlen : dataLen h = d.length) :
    newPacketFromBytes (writeHeader h ++ (d ++ t)) = .ok { toheader := h, data := d } := by
  have h1 : ReadFull (writeHeader h ++ (d ++ t)) headerSize = .ok (writeHeader h, d ++ t) := by
    have h16 : headerSize = (writeHeader h).length := by rw [length_writeHeader]; rfl
    rw [h16]
    exact ReadFull_append _ _
  have h2 : ReadFull (d ++ t) (dataLen (decodeHeader (writeHeader h))) = .ok (d, t) := by
    rw [decodeHeader_writeHeader h hr, hlen]
    exact ReadFull_append _ _
  rw [newPacketFromBytes_of_reads _ _ _ _ _ h1 h2, decodeHeader_writeHeader h hr]

theorem newPacket_inRange (op : Int) (d : List Byte) : (newPacket op d).toheader.inRange := by
  refine ⟨Nat.mod_lt _ (by norm_num), Nat.mod_lt _ (by norm_num), ?_, ?_, ?_⟩
  · show protocolVersion < 65536
    unfold protocolVersion
    omega
  · show (op % 4294967296).toNat < 4294967296
    omega
  · show (1 : Nat) < 4294967296
    omega

theorem newPacket_dataLen (op : Int) (d : List Byte) (hd : 16 + d.length < 4294967296) :
    dataLen (newPacket op d).toheader = d.length := by
  show (4294967296 + (headerSize + d.length) % 4294967296 - headerSize) % 4294967296 = d.length
  unfold headerSize
  omega

/-! ## The claims -/

/-- C1 (round trip): for an opcode in `0 .. 2^32-1` and a payload with
`16 + len(d) < 2^32`, `newPacket(op, d).bytes()` succeeds and `newPacketFromBytes` of
those bytes succeeds with a packet whose `Operation` is `op`, whose `data` is `d` and
whose `Size` is `16 + len(d)`; the decoded packet is the encoded one. -/
theorem newPacketFromBytes_bytes_roundtrip (op : Int) (d : List Byte) (hop0 : 0 ≤ op)
    (hop : op < 4294967296) (hd : 16 + d.length < 4294967296) :
    ∃ bs p, (newPacket op d).bytes = .ok bs ∧ newPacketFromBytes bs = .ok p ∧
      (p.Operation : Int) = op ∧ p.data = d ∧ p.Size = 16 + d.length ∧ p = newPacket op d := by
  refine ⟨writeHeader (newPacket op d).toheader ++ d, newPacket op d, rfl, ?_, ?_, rfl, ?_, rfl⟩
  · have h := newPacketFromBytes_writeHeader (newPacket op d).toheader d []
      (newPacket_inRange op d) (newPacket_dataLen op d hd)
    rw [List.append_nil] at h
    exact h
  · show (((op % 4294967296).toNat : Nat) : Int) = op
    omega
  · show (headerSize + d.length) % 4294967296 = 16 + d.length
    unfold headerSize
    omega

/-- The round trip at the heartbeat frame: opcode 2, payload `{}`. -/
theorem newPacketFromBytes_bytes_roundtrip_witness :
    ∃ bs p, (newPacket 2 [0x7b, 0x7d]).bytes = .ok bs ∧ newPacketFromBytes bs = .ok p ∧
      (p.Operation : Int) = 2 ∧ p.data = [0x7b, 0x7d] ∧ p.Size = 16 + [0x7b, 0x7d].length ∧
      p = newPacket 2 [0x7b, 0x7d] :=
  newPacketFromBytes_bytes_roundtrip 2 [0x7b, 0x7d] (by decide) (by decide) (by decide)

/-- C2 (wire layout): for an opcode in `0 .. 2^32-1` and a payload with
`16 + len(d) < 2^32`, `newPacket(op, d).bytes()` succeeds with exactly `16 + len(d)`
bytes: the 4-byte big-endian `16 + len(d)`, the 2-byte big-endian `16`, the 2-byte
big-endian `1`, the 4-byte big-endian `op`, the 4-byte big-endian `1`, then `d`. -/
theorem bytes_newPacket_layout (op : Int) (d : List Byte) (hop0 : 0 ≤ op)
    (hop : op < 4294967296) (hd : 16 + d.length < 4294967296) :
    ∃ bs, (newPacket op d).bytes = .ok bs ∧ bs.length = 16 + d.length ∧
      bs = bigEndianField 4 (16 + d.length) ++ bigEndianField 2 16 ++ bigEndianField 2 1 ++
        bigEndianField 4 op.toNat ++ bigEndianField 4 1 ++ d := by
  refine ⟨writeHeader (newPacket op d).toheader ++ d, rfl, ?_, ?_⟩
  · rw [List.length_append, length_writeHeader]
  · have e1 : (newPacket op d).Size = 16 + d.length := by
      show (headerSize + d.length) % 4294967296 = 16 + d.length
      unfold headerSize
      omega
    have e2 : (newPacket op d).Operation = op.toNat := by
      show (op % 4294967296).toNat = op.toNat
      omega
    have e3 : (newPacket op d).HeaderSize = 16 := rfl
    have e4 : (newPacket op d).ProtocolVersion = 1 := rfl
    have e5 : (newPacket op d).Sequence = 1 := rfl
    simp only [bigEndianField_four, bigEndianField_two]
    unfold writeHeader
    rw [e1, e2, e3, e4, e5]

/-- The heartbeat frame for the payload `{}`, octet by octet. -/
theorem bytes_newPacket_layout_witness :
    ∃ bs, (newPacket 2 [0x7b, 0x7d]).bytes = .ok bs ∧ bs.length = 18 ∧
      bs = [0x00, 0x00, 0x00, 0x12, 0x00, 0x10, 0x00, 0x01, 0x00, 0x00, 0x00, 0x02,
            0x00, 0x00, 0x00, 0x01, 0x7b, 0x7d] := by
  obtain ⟨bs, h1, h2, h3⟩ :=
    bytes_newPacket_layout 2 [0x7b, 0x7d] (by decide) (by decide) (by decide)
  exact ⟨bs, h1, h2, h3.trans (by decide)⟩

theorem dataLen_of_ge (h : header) (h1 : 16 ≤ h.Size) (h2 : h.Size < 4294967296) :
    dataLen h = h.Size - 16 := by
  unfold dataLen headerSize
  omega

theorem dataLen_of_lt (h : header) (h1 : h.Size < 16) :
    dataLen h = 4294967280 + h.Size := by
  unfold dataLen headerSize
  omega

theorem decodeHeader_take_Size (b : List Byte) (h : 16 ≤ b.length) :
    (decodeHeader (b.take 16)).Size = declaredSize b := by
  obtain ⟨a0, a1, a2, a3, a4, a5, a6, a7, a8, a9, a10, a11, a12, a13, a14, a15, rest, rfl⟩ :=
    exists_sixteen b h
  simp only [decodeHeader, declaredSize, List.take_succ_cons, List.getD_cons_zero,
    List.getD_cons_succ]

/-- C4 (truncated input): `newPacketFromBytes(b)` returns an error, and so no packet,
when `len(b) < 16`, and also when `len(b) >= 16` but `len(b)` is smaller than the
total size declared in the first four bytes. -/
theorem newPacketFromBytes_truncated (b : List Byte)
    (h : b.length < 16 ∨ (16 ≤ b.length ∧ b.length < declaredSize b)) :
    ∃ e, newPacketFromBytes b = .error e := by
  rcases h with h | ⟨h16, hlt⟩
  · obtain ⟨e, he⟩ := ReadFull_error_of_lt b headerSize h
    exact ⟨e, newPacketFromBytes_of_header_error b e he⟩
  · have h1 : ReadFull b headerSize = .ok (b.take 16, b.drop 16) :=
      (ReadFull_ok_iff b headerSize _ _).mpr ⟨h16, rfl, rfl⟩
    have hS := decodeHeader_take_Size b h16
    have hr := (decodeHeader_inRange (b.take 16)).1
    have hn : dataLen (decodeHeader (b.take 16)) = declaredSize b - 16 := by
      rw [dataLen_of_ge _ (by omega) hr, hS]
    have hshort : (b.drop 16).length < dataLen (decodeHeader (b.take 16)) := by
      rw [hn, List.length_drop]
      omega
    obtain ⟨e, he⟩ := ReadFull_error_of_lt _ _ hshort
    exact ⟨e, newPacketFromBytes_of_data_error b _ _ e h1 he⟩

/-- A 17-byte buffer that declares 18 bytes is rejected. -/
theorem newPacketFromBytes_truncated_witness :
    ∃ e, newPacketFromBytes [0x00, 0x00, 0x00, 0x12, 0x00, 0x10, 0x00, 0x01, 0x00, 0x00, 0x00,
      0x02, 0x00, 0x00, 0x00, 0x01, 0x7b] = .error e :=
  newPacketFromBytes_truncated _ (Or.inr ⟨by decide, by decide⟩)

/-- C10 (reverse round trip): when `newPacketFromBytes(b)` succeeds with a declared
size `S >= 16`, `bytes()` of the decoded packet succeeds and returns exactly the
first `S` bytes of `b`; the header is the 16 leading bytes as read (no field is
checked or replaced), the payload is taken from offset 16, and whatever follows the
first `S` bytes has no effect on the decoded packet. -/
theorem bytes_newPacketFromBytes (b : List Byte) (p : packet)
    (h : newPacketFromBytes b = .ok p) (hS : 16 ≤ p.Size) :
    p.bytes = .ok (b.take p.Size) ∧ p.Size ≤ b.length ∧
      p.toheader = decodeHeader (b.take 16) ∧ p.data = (b.drop 16).take (p.Size - 16) ∧
      ∀ t, newPacketFromBytes (b.take p.Size ++ t) = .ok p := by
  obtain ⟨h16, hn, rfl⟩ := newPacketFromBytes_ok_inv b p h
  have hS16 : 16 ≤ (decodeHeader (b.take 16)).Size := hS
  have hr := decodeHeader_inRange (b.take 16)
  have hlen : dataLen (decodeHeader (b.take 16)) = (decodeHeader (b.take 16)).Size - 16 :=
    dataLen_of_ge _ hS16 hr.1
  have hw : writeHeader (decodeHeader (b.take 16)) = b.take 16 :=
    writeHeader_decodeHeader _ (by rw [List.length_take]; omega)
  have htake : b.take (decodeHeader (b.take 16)).Size =
      b.take 16 ++ (b.drop 16).take ((decodeHeader (b.take 16)).Size - 16) := by
    have e : (decodeHeader (b.take 16)).Size = 16 + ((decodeHeader (b.take 16)).Size - 16) := by
      omega
    conv_lhs => rw [e]
    exact List.take_add b 16 _
  have hD : dataLen (decodeHeader (b.take 16)) =
      ((b.drop 16).take (dataLen (decodeHeader (b.take 16)))).length := by
    rw [List.length_take]
    omega
  rw [List.length_drop] at hn
  refine ⟨?_, ?_, rfl, ?_, ?_⟩
  · show Except.ok (writeHeader (decodeHeader (b.take 16)) ++
      (b.drop 16).take (dataLen (decodeHeader (b.take 16)))) = _
    rw [hw, hlen, htake]
  · show (decodeHeader (b.take 16)).Size ≤ b.length
    omega
  · show (b.drop 16).take (dataLen (decodeHeader (b.take 16))) = _
    rw [hlen]
  · intro t
    have key := newPacketFromBytes_writeHeader (decodeHeader (b.take 16))
      ((b.drop 16).take (dataLen (decodeHeader (b.take 16)))) t hr hD
    have e : b.take (decodeHeader (b.take 16)).Size ++ t =
        writeHeader (decodeHeader (b.take 16)) ++
          ((b.drop 16).take (dataLen (decodeHeader (b.take 16))) ++ t) := by
      rw [htake, hw, ← hlen, List.append_assoc]
    show newPacketFromBytes (b.take (decodeHeader (b.take 16)).Size ++ t) = _
    rw [e]
    exact key

/-- A frame with header size 99, version 7 and sequence 42, followed by two stray
bytes: the decoded packet encodes back to the first 17 bytes. -/
theorem bytes_newPacketFromBytes_witness :
    (packet.mk ⟨17, 99, 7, 5, 42⟩ [0x61]).bytes =
        .ok (List.take 17 [0, 0, 0, 17, 0, 99, 0, 7, 0, 0, 0, 5, 0, 0, 0, 42, 0x61, 0x62, 0x63]) ∧
      17 ≤ [0, 0, 0, 17, 0, 99, 0, 7, 0, 0, 0, 5, 0, 0, 0, 42, 0x61, 0x62, (0x63 : Byte)].length ∧
      (⟨17, 99, 7, 5, 42⟩ : header) =
        decodeHeader (List.take 16 [0, 0, 0, 17, 0, 99, 0, 7, 0, 0, 0, 5, 0, 0, 0, 42, 0x61, 0x62,
          0x63]) ∧
      [(0x61 : Byte)] = (List.drop 16 [0, 0, 0, 17, 0, 99, 0, 7, 0, 0, 0, 5, 0, 0, 0, 42, 0x61,
          0x62, 0x63]).take (17 - 16) ∧
      ∀ t, newPacketFromBytes (List.take 17 [0, 0, 0, 17, 0, 99, 0, 7, 0, 0, 0, 5, 0, 0, 0, 42,
          0x61, 0x62, 0x63] ++ t) = .ok (packet.mk ⟨17, 99, 7, 5, 42⟩ [0x61]) :=
  bytes_newPacketFromBytes [0, 0, 0, 17, 0, 99, 0, 7, 0, 0, 0, 5, 0, 0, 0, 42, 0x61, 0x62, 0x63]
    (packet.mk ⟨17, 99, 7, 5, 42⟩ [0x61]) (by rfl) (by decide)

/-- C3, the code at a header that declares less than a header: for the 16 bytes
`00 00 00 00 00 10 00 01 00 00 00 05 00 00 00 01` (declared size 0) the payload
length `p.Size - uint32(headerSize)` is the wrapped value 4294967280; the decode of
these 16 bytes ends in `EOF` from the read of that many payload bytes; and when
that many bytes follow the header the decode succeeds with `Size = 0` and
4294967280 payload bytes. -/
theorem dataLen_wraps_below_headerSize :
    dataLen (decodeHeader [0, 0, 0, 0, 0, 16, 0, 1, 0, 0, 0, 5, 0, 0, 0, 1]) = 4294967280 ∧
      newPacketFromBytes [0, 0, 0, 0, 0, 16, 0, 1, 0, 0, 0, 5, 0, 0, 0, 1] = .error .EOF ∧
      ∃ p, newPacketFromBytes ([0, 0, 0, 0, 0, 16, 0, 1, 0, 0, 0, 5, 0, 0, 0, 1] ++
          List.replicate 4294967280 0) = .ok p ∧
        p.Size = 0 ∧ p.data.length = 4294967280 := by
  have hd : dataLen (decodeHeader [0, 0, 0, 0, 0, 16, 0, 1, 0, 0, 0, 5, 0, 0, 0, 1]) =
      4294967280 := by decide
  refine ⟨hd, by rfl, ⟨decodeHeader [0, 0, 0, 0, 0, 16, 0, 1, 0, 0, 0, 5, 0, 0, 0, 1],
    List.replicate 4294967280 0⟩, ?_, by decide, List.length_replicate _ _⟩
  have h1 : ReadFull ([0, 0, 0, 0, 0, 16, 0, 1, 0, 0, 0, 5, 0, 0, 0, 1] ++
      List.replicate 4294967280 (0 : Byte)) headerSize =
      .ok ([0, 0, 0, 0, 0, 16, 0, 1, 0, 0, 0, 5, 0, 0, 0, 1], List.replicate 4294967280 0) :=
    ReadFull_append [0, 0, 0, 0, 0, 16, 0, 1, 0, 0, 0, 5, 0, 0, 0, 1] _
  have h2 : ReadFull (List.replicate 4294967280 (0 : Byte))
      (dataLen (decodeHeader [0, 0, 0, 0, 0, 16, 0, 1, 0, 0, 0, 5, 0, 0, 0, 1])) =
      .ok (List.replicate 4294967280 0, []) := by
    rw [hd]
    have h := ReadFull_append (List.replicate 4294967280 (0 : Byte)) []
    rw [List.append_nil, List.length_replicate] at h
    exact h
  exact newPacketFromBytes_of_reads _ _ _ _ _ h1 h2

/-- What the code does reach for a header that declares less than a header: on a
buffer shorter than `2^32` bytes the second read fails, so the decode returns an
error. -/
theorem newPacketFromBytes_error_of_small_size (b : List Byte) (h16 : 16 ≤ b.length)
    (hS : declaredSize b < 16) (hb : b.length < 4294967296) :
    ∃ e, newPacketFromBytes b = .error e := by
  have h1 : ReadFull b headerSize = .ok (b.take 16, b.drop 16) :=
    (ReadFull_ok_iff b headerSize _ _).mpr ⟨h16, rfl, rfl⟩
  have hd := dataLen_of_lt (decodeHeader (b.take 16)) (by rw [decodeHeader_take_Size b h16]; exact hS)
  have hshort : (b.drop 16).length < dataLen (decodeHeader (b.take 16)) := by
    rw [hd, List.length_drop]
    omega
  obtain ⟨e, he⟩ := ReadFull_error_of_lt _ _ hshort
  exact ⟨e, newPacketFromBytes_of_data_error b _ _ e h1 he⟩

/-! ### Popularity frames -/

/-- C5, as stated, fails: a well-formed frame with operation 3 and a 5-byte payload
decodes, and the dispatch step reports the population count 42 taken from the first
four payload bytes; no payload error is reported. -/
theorem popularity_five_byte_payload_reports_count :
    ∃ p, newPacketFromBytes [0, 0, 0, 21, 0, 16, 0, 1, 0, 0, 0, 3, 0, 0, 0, 1, 0, 0, 0, 42, 9] =
        .ok p ∧ p.Operation = opPopularity ∧ p.data.length = 5 ∧
      dispatch p = .ok (.logPopularity 42) :=
  ⟨packet.mk ⟨21, 16, 1, 3, 1⟩ [0, 0, 0, 42, 9], by rfl, by rfl, by rfl, by rfl⟩

/-- A popularity frame with an empty payload ends the read loop: the index
expression inside `binary.BigEndian.Uint32` panics, and the frames after it are
never handled. -/
theorem readLoop_popularity_empty_payload (rest : List (List Byte)) :
    readLoop ([0, 0, 0, 16, 0, 16, 0, 1, 0, 0, 0, 3, 0, 0, 0, 1] :: rest) =
      ([], some .indexOutOfRange) := by
  have h : handleMessage [0, 0, 0, 16, 0, 16, 0, 1, 0, 0, 0, 3, 0, 0, 0, 1] =
      .error .indexOutOfRange := by rfl
  rw [readLoop, h]

/-- C5, amended: for a decoded frame with operation 3 whose payload has at least 4
bytes, the dispatch step reports the population count read big-endian from the
first four payload bytes, and the read loop goes on to the next frame. -/
theorem dispatch_popularity_at_least_four (p : packet) (hop : p.Operation = opPopularity)
    (hlen : 4 ≤ p.data.length) :
    dispatch p = .ok (.logPopularity (beUint32 (p.data.getD 0 0) (p.data.getD 1 0)
        (p.data.getD 2 0) (p.data.getD 3 0))) ∧
      ∀ msg rest, newPacketFromBytes msg = .ok p →
        readLoop (msg :: rest) =
          (.logPopularity (beUint32 (p.data.getD 0 0) (p.data.getD 1 0) (p.data.getD 2 0)
            (p.data.getD 3 0)) :: (readLoop rest).1, (readLoop rest).2) := by
  have hd : dispatch p = .ok (.logPopularity (beUint32 (p.data.getD 0 0) (p.data.getD 1 0)
      (p.data.getD 2 0) (p.data.getD 3 0))) := by
    obtain ⟨hdr, data⟩ := p
    rcases data with _ | ⟨b0, _ | ⟨b1, _ | ⟨b2, _ | ⟨b3, rest⟩⟩⟩⟩
    all_goals first
      | (simp only [List.length_cons, List.length_nil] at hlen; omega)
      | (unfold dispatch; rw [if_pos hop]; rfl)
  refine ⟨hd, ?_⟩
  intro msg rest hmsg
  have hm : handleMessage msg = .ok (.logPopularity (beUint32 (p.data.getD 0 0)
      (p.data.getD 1 0) (p.data.getD 2 0) (p.data.getD 3 0))) := by
    unfold handleMessage
    rw [hmsg]
    exact hd
  rw [readLoop, hm]

/-- The payload `00 00 00 2A` is reported as the count 42. -/
theorem dispatch_popularity_at_least_four_witness :
    dispatch (packet.mk ⟨20, 16, 1, 3, 1⟩ [0x00, 0x00, 0x00, 0x2a]) = .ok (.logPopularity 42) := by
  have h := (dispatch_popularity_at_least_four (packet.mk ⟨20, 16, 1, 3, 1⟩ [0x00, 0x00, 0x00, 0x2a])
    (by rfl) (by decide)).1
  exact h.trans (by rfl)

/-! ### Oversized payloads -/

theorem newPacket_toheader (op : Int) (d : List Byte) :
    (newPacket op d).toheader =
      ⟨(headerSize + d.length) % 4294967296, headerSize % 65536, protocolVersion,
        (op % 4294967296).toNat, 1⟩ :=
  rfl

/-- C6, as stated, fails: for a payload of `2^32 - 16` bytes the encoding succeeds,
and the frame it returns starts with the size field `00 00 00 00`. -/
theorem bytes_newPacket_oversized :
    (newPacket 2 (List.replicate 4294967280 0)).bytes =
      .ok ([0, 0, 0, 0, 0, 16, 0, 1, 0, 0, 0, 2, 0, 0, 0, 1] ++ List.replicate 4294967280 0) := by
  have hh : writeHeader (newPacket 2 (List.replicate 4294967280 0)).toheader =
      [0, 0, 0, 0, 0, 16, 0, 1, 0, 0, 0, 2, 0, 0, 0, 1] := by
    rw [newPacket_toheader, List.length_replicate]
    decide
  show Except.ok (writeHeader (newPacket 2 (List.replicate 4294967280 0)).toheader ++
    List.replicate 4294967280 0) = _
  rw [hh]

/-- C6, amended: encoding never fails.  For every opcode and payload,
`newPacket` followed by `bytes` (and so `send`) succeeds with `16 + len(d)` bytes,
header first and payload unchanged, and the size field of the header is
`(16 + len(d)) mod 2^32`. -/
theorem bytes_newPacket_total (conn : List (List Byte)) (op : Int) (d : List Byte) :
    ∃ bs, (newPacket op d).bytes = .ok bs ∧ send conn op d = .ok (conn ++ [bs]) ∧
      bs.length = 16 + d.length ∧ bs.drop 16 = d ∧
      (newPacket op d).Size = (16 + d.length) % 4294967296 ∧
      bs.take 4 = PutUint32 ((16 + d.length) % 4294967296) := by
  refine ⟨writeHeader (newPacket op d).toheader ++ d, rfl, rfl, ?_, ?_, rfl, ?_⟩
  · rw [List.length_append, length_writeHeader]
  · have h := List.drop_left (writeHeader (newPacket op d).toheader) d
    rw [length_writeHeader] at h
    exact h
  · rw [newPacket_toheader]
    rfl

/-! ### Command routing -/

/-- C7 (command table): the outcome of `handleCommand` is decided by the `cmd`
string of the payload.  Each of the twelve suppressed names gives no output at
all; `DANMU_MSG` gives one chat event; `SEND_GIFT` gives one gift event; every
other value, the empty string of a missing `cmd` included, gives exactly one
unknown-command record holding the command name and the payload bytes as
received. -/
theorem handleCommand_routing (GetString : List Byte → List String → String)
    (GetInt : List Byte → List String → Int) (cmd : List Byte) :
    (GetString cmd ["cmd"] ∈ suppressedCommands → handleCommand GetString GetInt cmd = []) ∧
    (GetString cmd ["cmd"] = "DANMU_MSG" → handleCommand GetString GetInt cmd =
      [.chat (GetString cmd ["info", "2", "1"]) (GetString cmd ["info", "1"])]) ∧
    (GetString cmd ["cmd"] = "SEND_GIFT" → handleCommand GetString GetInt cmd =
      [.gift (GetString cmd ["data", "uname"]) (GetString cmd ["data", "action"])
        (GetString cmd ["data", "giftName"]) (GetInt cmd ["data", "num"])]) ∧
    (GetString cmd ["cmd"] ∉ suppressedCommands → GetString cmd ["cmd"] ≠ "DANMU_MSG" →
      GetString cmd ["cmd"] ≠ "SEND_GIFT" →
      handleCommand GetString GetInt cmd = [.unknownCommand (GetString cmd ["cmd"]) cmd]) := by
  refine ⟨?_, ?_, ?_, ?_⟩
  · intro h
    simp only [suppressedCommands, List.mem_cons, List.mem_singleton, List.not_mem_nil,
      or_false] at h
    rcases h with h | h | h | h | h | h | h | h | h | h | h | h <;>
      simp [handleCommand, h]
  · intro h
    simp [handleCommand, h]
  · intro h
    simp [handleCommand, h]
  · intro h h1 h2
    simp only [suppressedCommands, List.mem_cons, List.mem_singleton, List.not_mem_nil,
      or_false, not_or] at h
    obtain ⟨n1, n2, n3, n4, n5, n6, n7, n8, n9, n10, n11, n12⟩ := h
    simp [handleCommand, h1, h2, n1, n2, n3, n4, n5, n6, n7, n8, n9, n10, n11, n12]

/-- The suppressed name `LIVE` prints nothing; a missing `cmd` is logged with the
payload as received. -/
theorem handleCommand_routing_witness :
    handleCommand (fun _ _ => "LIVE") (fun _ _ => 0) [0x7b, 0x7d] = [] ∧
      handleCommand (fun _ _ => "") (fun _ _ => 0) [0x7b, 0x7d] =
        [.unknownCommand "" [0x7b, 0x7d]] :=
  ⟨(handleCommand_routing (fun _ _ => "LIVE") (fun _ _ => 0) [0x7b, 0x7d]).1 (by decide),
   (handleCommand_routing (fun _ _ => "") (fun _ _ => 0) [0x7b, 0x7d]).2.2.2
     (by decide) (by decide) (by decide)⟩

/-! ### The auth frame -/

theorem Sprintf_authJSONTemplate (r : Int) :
    Sprintf (stringBytes authJSONTemplate) r =
      stringBytes "\x7b\"uid\":0,\"roomid\":" ++ fmtInteger r ++
        stringBytes ",\"protover\":1,\"platform\":\"web\",\"clientver\":\"1.4.0\"\x7d" := by
  rfl

theorem length_fmtInteger_le (r : Int) (hlo : -9223372036854775808 ≤ r)
    (hhi : r < 9223372036854775808) : (fmtInteger r).length ≤ 20 := by
  have hd : (Nat.toDigits 10 r.natAbs).length ≤ 19 :=
    Nat.toDigitsCore_length 10 (by decide) (r.natAbs + 1) r.natAbs 19 (by omega) (by decide)
  unfold fmtInteger
  rw [List.length_append, List.length_map]
  split <;> simp <;> omega

theorem stringBytes_eq (s : String) :
    stringBytes s = s.data.flatMap String.utf8EncodeChar :=
  rfl

theorem toUTF8_append (s t : String) :
    (s ++ t).toUTF8.data.toList = s.toUTF8.data.toList ++ t.toUTF8.data.toList := by
  show (s ++ t).data.flatMap String.utf8EncodeChar =
    s.data.flatMap String.utf8EncodeChar ++ t.data.flatMap String.utf8EncodeChar
  rw [String.data_append, List.flatMap_append]

/-- Each decimal digit character is one octet in UTF-8, its code point. -/
theorem utf8EncodeChar_digitChar (k : Nat) (hk : k < 10) :
    String.utf8EncodeChar (Nat.digitChar k) = [UInt8.ofNat (Nat.digitChar k).toNat] := by
  have h : k = 0 ∨ k = 1 ∨ k = 2 ∨ k = 3 ∨ k = 4 ∨ k = 5 ∨ k = 6 ∨ k = 7 ∨ k = 8 ∨ k = 9 := by
    omega
  rcases h with h | h | h | h | h | h | h | h | h | h <;> subst h <;> decide

theorem utf8_toDigitsCore (f n : Nat) (acc : List Char)
    (hacc : ∀ c ∈ acc, String.utf8EncodeChar c = [UInt8.ofNat c.toNat]) :
    ∀ c ∈ Nat.toDigitsCore 10 f n acc, String.utf8EncodeChar c = [UInt8.ofNat c.toNat] := by
  induction f generalizing n acc with
  | zero => simpa [Nat.toDigitsCore] using hacc
  | succ f ih =>
    have hcons : ∀ c ∈ Nat.digitChar (n % 10) :: acc,
        String.utf8EncodeChar c = [UInt8.ofNat c.toNat] := by
      intro c hc
      rcases List.mem_cons.mp hc with h | h
      · rw [h]
        exact utf8EncodeChar_digitChar _ (Nat.mod_lt _ (by decide))
      · exact hacc c h
    show ∀ c ∈ (if n / 10 = 0 then Nat.digitChar (n % 10) :: acc
      else Nat.toDigitsCore 10 f (n / 10) (Nat.digitChar (n % 10) :: acc)), _
    by_cases hz : n / 10 = 0
    · rw [if_pos hz]
      exact hcons
    · rw [if_neg hz]
      exact ih _ _ hcons

theorem flatMap_utf8EncodeChar (l : List Char)
    (h : ∀ c ∈ l, String.utf8EncodeChar c = [UInt8.ofNat c.toNat]) :
    l.flatMap String.utf8EncodeChar = l.map (fun c => UInt8.ofNat c.toNat) := by
  induction l with
  | nil => rfl
  | cons c l ih =>
    rw [List.flatMap_cons, List.map_cons, h c (List.mem_cons_self _ _),
      ih (fun x hx => h x (List.mem_cons_of_mem _ hx))]
    rfl

theorem toUTF8_natRepr (n : Nat) :
    (toString n).toUTF8.data.toList =
      (Nat.toDigits 10 n).map (fun c => UInt8.ofNat c.toNat) :=
  flatMap_utf8EncodeChar (Nat.toDigits 10 n) (utf8_toDigitsCore _ _ [] (by simp))

/-- The text `fmt` prints for `%d` is the UTF-8 text of the decimal rendering of
the integer. -/
theorem fmtInteger_eq_toString (r : Int) :
    fmtInteger r = (toString r).toUTF8.data.toList := by
  cases r with
  | ofNat m =>
    have h : ¬ (Int.ofNat m < 0) := Int.not_lt.mpr (Int.ofNat_nonneg m)
    unfold fmtInteger
    rw [if_neg h, List.nil_append]
    exact (toUTF8_natRepr m).symm
  | negSucc m =>
    have h : Int.negSucc m < 0 := Int.negSucc_lt_zero m
    unfold fmtInteger
    rw [if_pos h]
    show _ = ("-" ++ toString (m + 1)).toUTF8.data.toList
    rw [toUTF8_append, toUTF8_natRepr]
    rfl

theorem Sprintf_authJSONTemplate_text (r : Int) :
    Sprintf (stringBytes authJSONTemplate) r =
      ("\x7b\"uid\":0,\"roomid\":" ++ toString r ++
        ",\"protover\":1,\"platform\":\"web\",\"clientver\":\"1.4.0\"\x7d").toUTF8.data.toList := by
  rw [toUTF8_append, toUTF8_append, ← fmtInteger_eq_toString]
  exact Sprintf_authJSONTemplate r

/-- C8 (auth frame): for a room id `r` in the range of a 64-bit `int`, the packet
`sendAuth` builds has operation 7 and sequence 1, its payload is the UTF-8 text
`{"uid":0,"roomid":R,"protover":1,"platform":"web","clientver":"1.4.0"}` with `R`
the decimal rendering of `r` (the text `toString r`, with a minus sign for a
negative number), its size field is 16 plus the byte length of that text, and the
frame written to the connection is that header followed by the payload. -/
theorem sendAuth_frame (conn : List (List Byte)) (r : Int)
    (hlo : -9223372036854775808 ≤ r) (hhi : r < 9223372036854775808) :
    ∃ payload, payload = ("\x7b\"uid\":0,\"roomid\":" ++ toString r ++
        ",\"protover\":1,\"platform\":\"web\",\"clientver\":\"1.4.0\"\x7d").toUTF8.data.toList ∧
      (newPacket opAuth payload).Operation = 7 ∧ (newPacket opAuth payload).Sequence = 1 ∧
      (newPacket opAuth payload).data = payload ∧
      (newPacket opAuth payload).Size = 16 + payload.length ∧
      sendAuth conn r = .ok (conn ++ [writeHeader ⟨16 + payload.length, 16, 1, 7, 1⟩ ++ payload]) := by
  have hlen : (Sprintf (stringBytes authJSONTemplate) r).length ≤ 89 := by
    rw [Sprintf_authJSONTemplate, List.length_append, List.length_append]
    have h1 : (stringBytes "\x7b\"uid\":0,\"roomid\":").length = 18 := by decide
    have h2 : (stringBytes
        ",\"protover\":1,\"platform\":\"web\",\"clientver\":\"1.4.0\"\x7d").length = 51 := by
      decide
    have h3 := length_fmtInteger_le r hlo hhi
    omega
  have hsize : (headerSize + (Sprintf (stringBytes authJSONTemplate) r).length) % 4294967296 =
      16 + (Sprintf (stringBytes authJSONTemplate) r).length := by
    unfold headerSize
    omega
  have hh : (newPacket opAuth (Sprintf (stringBytes authJSONTemplate) r)).toheader =
      ⟨16 + (Sprintf (stringBytes authJSONTemplate) r).length, 16, 1, 7, 1⟩ := by
    rw [newPacket_toheader, hsize]
    rfl
  have hs : sendAuth conn r = .ok (conn ++
      [writeHeader (newPacket opAuth (Sprintf (stringBytes authJSONTemplate) r)).toheader ++
        Sprintf (stringBytes authJSONTemplate) r]) := rfl
  refine ⟨Sprintf (stringBytes authJSONTemplate) r, Sprintf_authJSONTemplate_text r, rfl, rfl,
    rfl, hsize, ?_⟩
  rw [hs, hh]

/-- The auth frames for room 12345 and for the negative id -7. -/
theorem sendAuth_frame_witness :
    sendAuth [] 12345 = .ok [[0, 0, 0, 90, 0, 16, 0, 1, 0, 0, 0, 7, 0, 0, 0, 1] ++
      ("\x7b\"uid\":0,\"roomid\":12345,\"protover\":1,\"platform\":\"web\"," ++
        "\"clientver\":\"1.4.0\"\x7d").toUTF8.data.toList] ∧
    sendAuth [] (-7) = .ok [[0, 0, 0, 87, 0, 16, 0, 1, 0, 0, 0, 7, 0, 0, 0, 1] ++
      ("\x7b\"uid\":0,\"roomid\":-7,\"protover\":1,\"platform\":\"web\"," ++
        "\"clientver\":\"1.4.0\"\x7d").toUTF8.data.toList] := by
  obtain ⟨p1, hp1, -, -, -, -, hs1⟩ := sendAuth_frame [] 12345 (by decide) (by decide)
  obtain ⟨p2, hp2, -, -, -, -, hs2⟩ := sendAuth_frame [] (-7) (by decide) (by decide)
  subst hp1
  subst hp2
  exact ⟨hs1.trans (by rfl), hs2.trans (by rfl)⟩

end Cyka
